import Mathlib

/-!
Verification of the seam-carving specification against the repository
`apps/seam_carving`.  The repository ships the public header
`seam_carving.h` (the `buffer_t` record and the entry-point declaration
`void seam_carving(buffer_t *m0, buffer_t *result);`); the algorithmic
components (energy map builder, DP seam finder, seam remover, carving
driver) are described by the specification and are modelled here from its
words.  Machine integers are modelled as `Nat`; the `uint8_t*` host
pointer of a buffer is modelled as its indexed contents
(column, row, channel ↦ value).
-/

/-- Embedding of the C record `buffer_t` from `seam_carving.h`: a host
pointer (modelled as indexed contents), a device handle (`uint64_t dev`),
the two independent dirty flags (`bool host_dirty; bool dev_dirty;`), the
four extents `size_t dims[4]` and the element size `size_t elem_size`. -/
structure buffer_t where
  host : Nat → Nat → Nat → Nat
  dev : Nat
  host_dirty : Bool
  dev_dirty : Bool
  dims : Fin 4 → Nat
  elem_size : Nat

/-- Modelled from the spec: the error kinds of the error-handling design
(`AllocationError`, `InvalidTargetError`, `SyncError`). -/
inductive CarveError where
  | AllocationError : CarveError
  | InvalidTargetError : CarveError
  | SyncError : CarveError
deriving DecidableEq

/-- Embedding of the C return type of `seam_carving` from the header:
the function returns `void`, modelled as `Unit`. -/
def seamCarvingReturn : Type := Unit

/-- Embedding of the C type of the entry point from the header:
`void seam_carving(buffer_t *m0, buffer_t *result)` takes exactly two
`buffer_t` pointers and returns `void`; a call is modelled as a function
of the two pointed-to buffers returning the `void` value. -/
def seamCarvingSignature : Type := buffer_t → buffer_t → seamCarvingReturn

/-- Modelled from the spec: an image as seen by the carving core — a
width × height × channels array of samples together with the element
size; `pix x y c` is the sample of channel `c` at column `x`, row `y`. -/
structure Image where
  width : Nat
  height : Nat
  channels : Nat
  elemSize : Nat
  pix : Nat → Nat → Nat → Nat

/-- Minimum of a list of naturals; the empty list (never produced by the
seam finder, whose candidate sets always contain the center column) is
mapped to `0`. -/
def minList : List Nat → Nat
  | [] => 0
  | [a] => a
  | a :: b :: l => min a (minList (b :: l))

/-- Modelled from the spec: the predecessor columns of column `x` in the
previous DP row — `x-1`, `x`, `x+1` restricted to `[0, W)`; out-of-range
neighbors are absent from the candidate set. -/
def predCols (W x : Nat) : List Nat :=
  (if 0 < x then [x - 1] else []) ++ x :: (if x + 1 < W then [x + 1] else [])

/-- Modelled from the spec: the DP cost table of the seam finder —
`cost[0][x] = energy[0][x]`, and
`cost[y][x] = energy[y][x] + min` over the in-range predecessor columns
of the previous row. -/
def cost (e : Nat → Nat → Nat) (W : Nat) : Nat → Nat → Nat
  | 0, x => e 0 x
  | y + 1, x => e (y + 1) x + minList ((predCols W x).map (cost e W y))

/-- Modelled from the spec: the predecessor chosen during backtracking,
with the tie-break policy — prefer the center column, then the left,
then the right, among the candidates attaining the minimum cost of the
previous row (`prev`). -/
def choosePred (prev : Nat → Nat) (W x : Nat) : Nat :=
  if prev x = minList ((predCols W x).map prev) then x
  else if 0 < x ∧ prev (x - 1) = minList ((predCols W x).map prev) then x - 1
  else x + 1

/-- Modelled from the spec: the argmin of a cost row over columns
`[0, W)`, ties broken by the lowest column index. -/
def argminRow (f : Nat → Nat) : Nat → Nat
  | 0 => 0
  | W + 1 => if f W < f (argminRow f W) then W else argminRow f W

/-- Modelled from the spec: retracing the chosen predecessor upward from
a starting column `x` in the bottom row `b`; `traceUp e W b x k` is the
seam column `k` rows above the bottom row. -/
def traceUp (e : Nat → Nat → Nat) (W b x : Nat) : Nat → Nat
  | 0 => x
  | k + 1 => choosePred (cost e W (b - (k + 1))) W (traceUp e W b x k)

/-- Modelled from the spec: the seam finder — fill the cost table, start
at the argmin of the bottom row, and reconstruct the path upward by
retracing the chosen predecessor; the result lists one column per row,
top row first. -/
def findSeam (e : Nat → Nat → Nat) (W H : Nat) : List Nat :=
  match H with
  | 0 => []
  | h + 1 =>
    (List.range (h + 1)).map fun y => traceUp e W h (argminRow (cost e W h) W) (h - y)

/-- Modelled from the spec: the seam remover — a fresh buffer one column
narrower in which, on each row `y`, pixels left of `seam[y]` are kept in
place and pixels right of `seam[y]` are shifted one column toward lower
indices, channel-wise. -/
def removeSeam (img : Image) (seam : List Nat) : Image :=
  { width := img.width - 1
    height := img.height
    channels := img.channels
    elemSize := img.elemSize
    pix := fun x y c => if x < seam.getD y 0 then img.pix x y c else img.pix (x + 1) y c }

/-- Modelled from the spec: the energy map builder — per pixel, the sum
over channels of the squared horizontal and vertical intensity
gradients, clamping at image borders by replicating the edge pixel. -/
def energyAt (img : Image) (x y : Nat) : Nat :=
  (List.range img.channels).foldl
    (fun acc c =>
      let dh := Nat.dist (img.pix (min (x + 1) (img.width - 1)) y c) (img.pix (x - 1) y c)
      let dv := Nat.dist (img.pix x (min (y + 1) (img.height - 1)) c) (img.pix x (y - 1) c)
      acc + dh * dh + dv * dv) 0

/-- Modelled from the spec: one carving iteration — build the energy
map, find the minimum seam, remove it. -/
def carveStep (img : Image) : Image :=
  removeSeam img (findSeam (fun y x => energyAt img x y) img.width img.height)

/-- Modelled from the spec: the driver loop, removing one seam per
iteration. -/
def carveLoop : Nat → Image → Image
  | 0, img => img
  | k + 1, img => carveLoop k (carveStep img)

/-- Modelled from the spec: the carving driver on an image — reject a
target width outside `[1, width]` with `InvalidTargetError` before any
work begins, otherwise iterate until the width reaches the target. -/
def seamCarve (img : Image) (target : Nat) : Except CarveError Image :=
  if target = 0 ∨ img.width < target then Except.error CarveError.InvalidTargetError
  else Except.ok (carveLoop (img.width - target) img)

/-- Modelled from the spec: the image view of a buffer — extents
`dims[0] × dims[1] × dims[2]` read as width, height, channels. -/
def bufImage (b : buffer_t) : Image :=
  { width := b.dims 0, height := b.dims 1, channels := b.dims 2,
    elemSize := b.elem_size, pix := b.host }

/-- Modelled from the spec: the Carving Driver behind the `void` C entry
point.  Following the design notes, the output buffer's declared width
(`result.dims 0`) is the target width.  The first component is the
outcome — the filled output buffer, marked host-dirty, or the error
kind; the second component is the state of the input buffer after the
call. -/
def seamCarvingRun (m0 result : buffer_t) : Except CarveError buffer_t × buffer_t :=
  match seamCarve (bufImage m0) (result.dims 0) with
  | Except.error e => (Except.error e, m0)
  | Except.ok out =>
      (Except.ok
        { host := out.pix
          dev := result.dev
          host_dirty := true
          dev_dirty := result.dev_dirty
          dims := fun i => if i = 0 then out.width else if i = 1 then out.height
                           else if i = 2 then out.channels else result.dims i
          elem_size := out.elemSize }, m0)

/-! Helper lemmas about `minList` and the candidate sets. -/

theorem minList_le (l : List Nat) : ∀ a ∈ l, minList l ≤ a := by
  induction l with
  | nil => simp
  | cons b t ih =>
    cases t with
    | nil => simp [minList]
    | cons c t2 =>
      intro a ha
      rcases List.mem_cons.mp ha with h | h
      · subst h; exact Nat.min_le_left _ _
      · exact le_trans (Nat.min_le_right _ _) (ih a h)

theorem minList_mem (l : List Nat) (h : l ≠ []) : minList l ∈ l := by
  induction l with
  | nil => exact absurd rfl h
  | cons b t ih =>
    cases t with
    | nil => simp [minList]
    | cons c t2 =>
      rcases Nat.le_total b (minList (c :: t2)) with hb | hb
      · simp only [minList, Nat.min_eq_left hb]
        exact List.mem_cons_self _ _
      · simp only [minList, Nat.min_eq_right hb]
        exact List.mem_cons_of_mem _ (ih (by simp))

theorem mem_predCols (W x c : Nat) :
    c ∈ predCols W x ↔ c = x ∨ (0 < x ∧ c = x - 1) ∨ (x + 1 < W ∧ c = x + 1) := by
  unfold predCols
  by_cases h0 : 0 < x <;> by_cases h1 : x + 1 < W <;> simp [h0, h1] <;> tauto

theorem predCols_ne_nil (W x : Nat) : predCols W x ≠ [] := by
  intro h
  have hx : x ∈ predCols W x := (mem_predCols W x x).mpr (Or.inl rfl)
  rw [h] at hx
  exact absurd hx (List.not_mem_nil x)

/-- The chosen predecessor attains the minimum of the candidate set, lies
in `[0, W)` when `x` does, and is at distance at most 1 from `x`. -/
theorem choosePred_spec (prev : Nat → Nat) (W x : Nat) (hx : x < W) :
    prev (choosePred prev W x) = minList ((predCols W x).map prev) ∧
    choosePred prev W x < W ∧ Nat.dist x (choosePred prev W x) ≤ 1 := by
  unfold choosePred
  split
  · rename_i h1
    exact ⟨h1, hx, by simp [Nat.dist_self]⟩
  · rename_i h1
    split
    · rename_i h2
      refine ⟨h2.2, by omega, ?_⟩
      have := h2.1
      simp [Nat.dist]; omega
    · rename_i h2
      have hne : (predCols W x).map prev ≠ [] := by
        simp [predCols_ne_nil W x]
      have hmem := minList_mem _ hne
      rcases List.mem_map.mp hmem with ⟨c, hc, hcm⟩
      rcases (mem_predCols W x c).mp hc with h | ⟨hx0, h⟩ | ⟨hW, h⟩
      · subst h; exact absurd hcm h1
      · subst h; exact absurd ⟨hx0, hcm⟩ h2
      · subst h
        refine ⟨hcm, hW, ?_⟩
        simp [Nat.dist]

/-! Helper lemmas about `argminRow`. -/

theorem argminRow_lt (f : Nat → Nat) : ∀ W, 0 < W → argminRow f W < W := by
  intro W
  induction W with
  | zero => simp
  | succ n ih =>
    intro _
    simp only [argminRow]
    split
    · omega
    · rcases Nat.eq_zero_or_pos n with h0 | hpos
      · subst h0; simp [argminRow]
      · exact Nat.lt_succ_of_lt (ih hpos)

theorem argminRow_min (f : Nat → Nat) : ∀ W x, x < W → f (argminRow f W) ≤ f x := by
  intro W
  induction W with
  | zero => intro x hx; omega
  | succ n ih =>
    intro x hx
    simp only [argminRow]
    split
    · rename_i h
      rcases Nat.lt_succ_iff_lt_or_eq.mp hx with h2 | h2
      · exact le_trans (Nat.le_of_lt h) (ih x h2)
      · subst h2; exact le_refl _
    · rename_i h
      rcases Nat.lt_succ_iff_lt_or_eq.mp hx with h2 | h2
      · exact ih x h2
      · subst h2; omega

theorem argminRow_tie (f : Nat → Nat) : ∀ W x, x < argminRow f W → f (argminRow f W) < f x := by
  intro W
  induction W with
  | zero => intro x hx; simp [argminRow] at hx
  | succ n ih =>
    intro x
    simp only [argminRow]
    split
    · rename_i h
      intro hx
      exact Nat.lt_of_lt_of_le h (argminRow_min f n x hx)
    · exact ih x

/-! Helper lemmas about `traceUp`, `findSeam` and the driver loop. -/

theorem traceUp_lt (e : Nat → Nat → Nat) (W b x : Nat) (hx : x < W) :
    ∀ k, traceUp e W b x k < W := by
  intro k
  induction k with
  | zero => exact hx
  | succ n ih => exact (choosePred_spec _ W _ ih).2.1

theorem traceUp_dist (e : Nat → Nat → Nat) (W b x : Nat) (hx : x < W) (k : Nat) :
    Nat.dist (traceUp e W b x k) (traceUp e W b x (k + 1)) ≤ 1 :=
  (choosePred_spec _ W _ (traceUp_lt e W b x hx k)).2.2

theorem findSeam_getD (e : Nat → Nat → Nat) (W h y : Nat) (hy : y ≤ h) :
    (findSeam e W (h + 1)).getD y 0 =
      traceUp e W h (argminRow (cost e W h) W) (h - y) := by
  simp only [findSeam]
  rw [List.getD_eq_getElem?_getD, List.getElem?_map, List.getElem?_range (by omega)]
  rfl

theorem findSeam_length (e : Nat → Nat → Nat) (W H : Nat) :
    (findSeam e W H).length = H := by
  cases H with
  | zero => rfl
  | succ h => simp [findSeam]

theorem carveStep_dims (img : Image) :
    (carveStep img).width = img.width - 1 ∧ (carveStep img).height = img.height ∧
    (carveStep img).channels = img.channels ∧ (carveStep img).elemSize = img.elemSize :=
  ⟨rfl, rfl, rfl, rfl⟩

theorem carveLoop_dims (k : Nat) : ∀ img : Image,
    (carveLoop k img).width = img.width - k ∧ (carveLoop k img).height = img.height ∧
    (carveLoop k img).channels = img.channels ∧ (carveLoop k img).elemSize = img.elemSize := by
  induction k with
  | zero => intro img; exact ⟨by simp [carveLoop], rfl, rfl, rfl⟩
  | succ n ih =>
    intro img
    have h := ih (carveStep img)
    refine ⟨?_, h.2.1, h.2.2.1, h.2.2.2⟩
    have hw := h.1
    simp only [carveLoop]
    rw [hw, (carveStep_dims img).1]
    omega

/-- The candidate columns named by the spec — the integer columns
`x-1`, `x`, `x+1` restricted to `[0, W)` — coincide with the model's
`predCols`. -/
theorem intCands_eq (W x : Nat) (hx : x < W) :
    (([(x : Int) - 1, (x : Int), (x : Int) + 1].filter
        (fun c => decide (0 ≤ c ∧ c < (W : Int)))).map Int.toNat) = predCols W x := by
  have hW0 : 0 < W := by omega
  have t1 : ((x : Int) - 1).toNat = x - 1 := by omega
  have t2 : ((x : Int)).toNat = x := by omega
  have t3 : ((x : Int) + 1).toNat = x + 1 := by omega
  have hp3 : (0 : Int) ≤ (x : Int) + 1 := by omega
  have hxi : (x : Int) < (W : Int) := by omega
  rcases Nat.eq_zero_or_pos x with h0 | hpos
  · subst h0
    by_cases hW : 0 + 1 < W
    · have hi4 : ((0 : Nat) : Int) + 1 < (W : Int) := by omega
      simp [List.filter, predCols, hW, hW0, hi4, hxi]
    · have d4 : decide (((0 : Nat) : Int) + 1 < (W : Int)) = false := by
        rw [decide_eq_false_iff_not]; omega
      simp [List.filter, predCols, hW, hW0, d4, hxi]
  · have hi1 : (x : Int) - 1 < (W : Int) := by omega
    have hp1 : (1 : Int) ≤ (x : Int) := by omega
    by_cases hW : x + 1 < W
    · have hi4 : (x : Int) + 1 < (W : Int) := by omega
      simp [List.filter, predCols, hW, hpos, hi1, hp1, hi4, hxi, hp3, t1, t2, t3]
    · have d4 : decide ((x : Int) + 1 < (W : Int)) = false := by
        rw [decide_eq_false_iff_not]; omega
      simp [List.filter, predCols, hW, hpos, hi1, hp1, d4, hxi, t1, t2, t3]

theorem seamCarve_ok (img : Image) (t : Nat) (h1 : 0 < t) (h2 : t ≤ img.width) :
    seamCarve img t = Except.ok (carveLoop (img.width - t) img) := by
  unfold seamCarve
  rw [if_neg (by omega)]

/-! Concrete instances used by the witnesses below. -/

def testEnergy : Nat → Nat → Nat := fun _ x => if x = 2 then 0 else 9

def testImg : Image :=
  { width := 3, height := 2, channels := 1, elemSize := 1,
    pix := fun x y c => x + 10 * y + 100 * c }

def testSrcBuf : buffer_t :=
  { host := fun x y c => x + 10 * y + 100 * c
    dev := 0
    host_dirty := true
    dev_dirty := false
    dims := fun i => if i = 0 then 3 else if i = 1 then 2 else if i = 2 then 1 else 0
    elem_size := 1 }

def testOutBuf : buffer_t :=
  { host := fun _ _ _ => 0
    dev := 0
    host_dirty := false
    dev_dirty := false
    dims := fun i => if i = 0 then 2 else if i = 1 then 2 else if i = 2 then 1 else 0
    elem_size := 1 }

def testOutBufSame : buffer_t :=
  { testOutBuf with dims := fun i => if i = 0 then 3 else if i = 1 then 2
                                     else if i = 2 then 1 else 0 }

def testOutBufZero : buffer_t :=
  { testOutBuf with dims := fun _ => 0 }

/-- C10: the `buffer_t` record stores the host/device dirty state as two
independent `Bool` fields, so the both-dirty value is representable at
the public interface — the type itself does not exclude it. -/
theorem buffer_both_dirty_representable :
    ∃ b : buffer_t, b.host_dirty = true ∧ b.dev_dirty = true :=
  ⟨{ host := fun _ _ _ => 0, dev := 0, host_dirty := true, dev_dirty := true,
     dims := fun _ => 0, elem_size := 1 }, rfl, rfl⟩

/-- C9: the public entry point returns `void` (a one-valued type) and
takes exactly two `buffer_t` pointers, so its return value cannot
distinguish any two outcomes; in particular no map from the error kinds
into the return type separates `AllocationError`, `InvalidTargetError`
and `SyncError`, so no error kind can be surfaced through the return
value. -/
theorem seam_carving_void_return :
    (∀ u v : seamCarvingReturn, u = v) ∧
    (∀ (g : seamCarvingSignature) (a b a2 b2 : buffer_t), g a b = g a2 b2) ∧
    (∀ f : CarveError → seamCarvingReturn,
      f CarveError.AllocationError = f CarveError.InvalidTargetError ∧
      f CarveError.InvalidTargetError = f CarveError.SyncError) :=
  ⟨fun _ _ => rfl, fun _ _ _ _ _ => rfl, fun _ => ⟨rfl, rfl⟩⟩

/-- C2: the seam finder's cost table satisfies `cost[0][x] = energy[0][x]`
on the top row and, below it,
`cost[y][x] = energy[y][x] + min` of the previous row's costs at the
integer columns `x-1, x, x+1` restricted to `[0, W)`; an out-of-range
neighbor column is absent from the candidate set rather than replaced by
zero or infinity. -/
theorem cost_table_recurrence (e : Nat → Nat → Nat) (W x : Nat) (hx : x < W) :
    cost e W 0 x = e 0 x ∧
    ∀ y, cost e W (y + 1) x =
      e (y + 1) x +
        minList (([(x : Int) - 1, (x : Int), (x : Int) + 1].filter
          (fun c => decide (0 ≤ c ∧ c < (W : Int)))).map
            (fun c => cost e W y c.toNat)) := by
  refine ⟨rfl, fun y => ?_⟩
  show e (y + 1) x + minList ((predCols W x).map (cost e W y)) = _
  congr 1
  rw [← intCands_eq W x hx, List.map_map]
  rfl

/-- C2 witness: the recurrence instantiated on a concrete 3-wide energy
map at column 1. -/
theorem cost_table_recurrence_witness :
    cost testEnergy 3 0 1 = testEnergy 0 1 :=
  (cost_table_recurrence testEnergy 3 1 (by decide)).1

/-- C5: tie-break policy of the seam finder — among predecessor columns
attaining the equal minimum cost, the center column is chosen first,
then the left, then the right; the seam's starting column is the argmin
of the bottom cost row with ties broken by the lowest column index; and
the path is reconstructed upward by retracing the chosen predecessor at
each step. -/
theorem seam_tiebreak_policy :
    (∀ (prev : Nat → Nat) (W x : Nat),
      (prev x = minList ((predCols W x).map prev) → choosePred prev W x = x) ∧
      (¬ prev x = minList ((predCols W x).map prev) →
        0 < x → prev (x - 1) = minList ((predCols W x).map prev) →
        choosePred prev W x = x - 1) ∧
      (¬ prev x = minList ((predCols W x).map prev) →
        ¬ (0 < x ∧ prev (x - 1) = minList ((predCols W x).map prev)) →
        choosePred prev W x = x + 1)) ∧
    (∀ (f : Nat → Nat) (W : Nat), 0 < W →
      argminRow f W < W ∧
      (∀ c, c < W → f (argminRow f W) ≤ f c) ∧
      (∀ c, c < argminRow f W → f (argminRow f W) < f c)) ∧
    (∀ (e : Nat → Nat → Nat) (W h : Nat),
      (findSeam e W (h + 1)).getD h 0 = argminRow (cost e W h) W ∧
      (∀ y, y < h →
        (findSeam e W (h + 1)).getD y 0 =
          choosePred (cost e W y) W ((findSeam e W (h + 1)).getD (y + 1) 0))) := by
  refine ⟨?_, ?_, ?_⟩
  · intro prev W x
    refine ⟨fun h1 => ?_, fun h1 hx0 hm => ?_, fun h1 h2 => ?_⟩
    · rw [choosePred, if_pos h1]
    · rw [choosePred, if_neg h1, if_pos ⟨hx0, hm⟩]
    · rw [choosePred, if_neg h1, if_neg h2]
  · intro f W hW
    exact ⟨argminRow_lt f W hW, fun c hc => argminRow_min f W c hc,
      fun c hc => argminRow_tie f W c hc⟩
  · intro e W h
    constructor
    · rw [findSeam_getD e W h h (le_refl h), Nat.sub_self]
      rfl
    · intro y hy
      rw [findSeam_getD e W h y (by omega), findSeam_getD e W h (y + 1) (by omega)]
      have hk : h - y = (h - (y + 1)) + 1 := by omega
      rw [hk]
      show choosePred (cost e W (h - (h - (y + 1) + 1))) W _ = _
      rw [show h - (h - (y + 1) + 1) = y from by omega]

/-- C5 witness: the tie-break policy instantiated at a concrete constant
cost row, where all three candidates tie and the center is chosen. -/
theorem seam_tiebreak_policy_witness :
    choosePred (fun _ => 5) 3 1 = 1 :=
  (seam_tiebreak_policy.1 (fun _ => 5) 3 1).1 (by decide)

/-- C6: every seam produced by the seam finder on a `W × H` energy map
has exactly `H` entries, each entry lies in `[0, W)`, and adjacent
entries differ by at most one column. -/
theorem seam_validity (e : Nat → Nat → Nat) (W H : Nat) (hW : 0 < W) :
    (findSeam e W H).length = H ∧
    (∀ i, i < H → (findSeam e W H).getD i 0 < W) ∧
    (∀ i, i + 1 < H →
      Nat.dist ((findSeam e W H).getD i 0) ((findSeam e W H).getD (i + 1) 0) ≤ 1) := by
  refine ⟨findSeam_length e W H, ?_, ?_⟩
  · intro i hi
    cases H with
    | zero => omega
    | succ h =>
      rw [findSeam_getD e W h i (by omega)]
      exact traceUp_lt e W h _ (argminRow_lt _ W hW) _
  · intro i hi
    cases H with
    | zero => omega
    | succ h =>
      rw [findSeam_getD e W h i (by omega), findSeam_getD e W h (i + 1) (by omega)]
      have hk : h - i = (h - (i + 1)) + 1 := by omega
      rw [hk, Nat.dist_comm]
      exact traceUp_dist e W h _ (argminRow_lt _ W hW) _

/-- C6 witness: seam validity on a concrete 3 × 2 energy map. -/
theorem seam_validity_witness :
    (0 < 3) ∧
    ((findSeam testEnergy 3 2).length = 2 ∧
    (∀ i, i < 2 → (findSeam testEnergy 3 2).getD i 0 < 3) ∧
    (∀ i, i + 1 < 2 →
      Nat.dist ((findSeam testEnergy 3 2).getD i 0)
        ((findSeam testEnergy 3 2).getD (i + 1) 0) ≤ 1)) :=
  ⟨by decide, seam_validity testEnergy 3 2 (by decide)⟩

/-- C4: on every image of width at least 2, the seam remover maps, on
each row, every pixel originally at a column right of the seam to the
column one to its left (all channels together), keeps pixels left of the
seam in place, and drops the last column — the output is one column
narrower while height and channel count are preserved; the source image
itself is a separate, unmodified value. -/
theorem remover_shift (img : Image) (seam : List Nat) (hw : 2 ≤ img.width)
    (y : Nat) (hy : y < img.height) (c : Nat) :
    (∀ col, seam.getD y 0 < col → col < img.width →
      (removeSeam img seam).pix (col - 1) y c = img.pix col y c) ∧
    (∀ col, col < seam.getD y 0 → (removeSeam img seam).pix col y c = img.pix col y c) ∧
    (removeSeam img seam).width = img.width - 1 ∧
    (removeSeam img seam).height = img.height ∧
    (removeSeam img seam).channels = img.channels := by
  refine ⟨?_, ?_, rfl, rfl, rfl⟩
  · intro col h1 h2
    show (if col - 1 < seam.getD y 0 then img.pix (col - 1) y c
          else img.pix (col - 1 + 1) y c) = img.pix col y c
    rw [if_neg (by omega)]
    congr 1
    omega
  · intro col h1
    show (if col < seam.getD y 0 then img.pix col y c else img.pix (col + 1) y c)
          = img.pix col y c
    rw [if_pos h1]

/-- C4 witness: the remover instantiated on a concrete 3 × 2 image and
the seam `[1, 1]`. -/
theorem remover_shift_witness :
    (2 ≤ testImg.width) ∧ (0 < testImg.height) ∧
    ((∀ col, ([1, 1] : List Nat).getD 0 0 < col → col < testImg.width →
      (removeSeam testImg [1, 1]).pix (col - 1) 0 0 = testImg.pix col 0 0) ∧
    (∀ col, col < ([1, 1] : List Nat).getD 0 0 →
      (removeSeam testImg [1, 1]).pix col 0 0 = testImg.pix col 0 0) ∧
    (removeSeam testImg [1, 1]).width = testImg.width - 1 ∧
    (removeSeam testImg [1, 1]).height = testImg.height ∧
    (removeSeam testImg [1, 1]).channels = testImg.channels) :=
  ⟨by decide, by decide, remover_shift testImg [1, 1] (by decide) 0 (by decide) 0⟩

/-- C1: a valid invocation (positive source extents, target width in
`[1, source width]`) succeeds and returns a buffer whose width equals
the target, whose height, channel count and element size equal the
source's, and which is marked host-dirty. -/
theorem driver_output_dims (m0 result : buffer_t)
    (hW : 0 < m0.dims 0) (hH : 0 < m0.dims 1) (hC : 0 < m0.dims 2)
    (ht1 : 0 < result.dims 0) (ht2 : result.dims 0 ≤ m0.dims 0) :
    ∃ b : buffer_t, (seamCarvingRun m0 result).1 = Except.ok b ∧
      b.dims 0 = result.dims 0 ∧ b.dims 1 = m0.dims 1 ∧
      b.dims 2 = m0.dims 2 ∧ b.elem_size = m0.elem_size ∧
      b.host_dirty = true := by
  have hok := seamCarve_ok (bufImage m0) (result.dims 0) ht1 ht2
  unfold seamCarvingRun
  rw [hok]
  refine ⟨_, rfl, ?_, ?_, ?_, ?_, rfl⟩
  · show (carveLoop ((bufImage m0).width - result.dims 0) (bufImage m0)).width
        = result.dims 0
    rw [(carveLoop_dims _ _).1]
    show m0.dims 0 - (m0.dims 0 - result.dims 0) = result.dims 0
    omega
  · show (carveLoop ((bufImage m0).width - result.dims 0) (bufImage m0)).height
        = m0.dims 1
    rw [(carveLoop_dims _ _).2.1]
    rfl
  · show (carveLoop ((bufImage m0).width - result.dims 0) (bufImage m0)).channels
        = m0.dims 2
    rw [(carveLoop_dims _ _).2.2.1]
    rfl
  · show (carveLoop ((bufImage m0).width - result.dims 0) (bufImage m0)).elemSize
        = m0.elem_size
    rw [(carveLoop_dims _ _).2.2.2]
    rfl

/-- C1 witness: a valid invocation on a concrete 3 × 2 × 1 source buffer
with target width 2. -/
theorem driver_output_dims_witness :
    (0 < testSrcBuf.dims 0) ∧ (0 < testSrcBuf.dims 1) ∧ (0 < testSrcBuf.dims 2) ∧
    (0 < testOutBuf.dims 0) ∧ (testOutBuf.dims 0 ≤ testSrcBuf.dims 0) ∧
    (∃ b : buffer_t, (seamCarvingRun testSrcBuf testOutBuf).1 = Except.ok b ∧
      b.dims 0 = testOutBuf.dims 0 ∧ b.dims 1 = testSrcBuf.dims 1 ∧
      b.dims 2 = testSrcBuf.dims 2 ∧ b.elem_size = testSrcBuf.elem_size ∧
      b.host_dirty = true) :=
  ⟨by decide, by decide, by decide, by decide, by decide,
    driver_output_dims testSrcBuf testOutBuf (by decide) (by decide) (by decide)
      (by decide) (by decide)⟩

/-- C3: invoking the driver with a target width of zero or larger than
the source width fails with `InvalidTargetError`, and the source
buffer's pixel contents and both dirty flags are unchanged by the failed
call. -/
theorem driver_invalid_target (m0 result : buffer_t)
    (h : result.dims 0 = 0 ∨ m0.dims 0 < result.dims 0) :
    (seamCarvingRun m0 result).1 = Except.error CarveError.InvalidTargetError ∧
    (seamCarvingRun m0 result).2.host = m0.host ∧
    (seamCarvingRun m0 result).2.host_dirty = m0.host_dirty ∧
    (seamCarvingRun m0 result).2.dev_dirty = m0.dev_dirty := by
  have herr : seamCarve (bufImage m0) (result.dims 0)
      = Except.error CarveError.InvalidTargetError := by
    unfold seamCarve
    rw [if_pos
      (show result.dims 0 = 0 ∨ (bufImage m0).width < result.dims 0 from h)]
  unfold seamCarvingRun
  rw [herr]
  exact ⟨rfl, rfl, rfl, rfl⟩

/-- C3 witness: a call with declared target width 0 on a concrete
source buffer. -/
theorem driver_invalid_target_witness :
    (testOutBufZero.dims 0 = 0 ∨ testSrcBuf.dims 0 < testOutBufZero.dims 0) ∧
    ((seamCarvingRun testSrcBuf testOutBufZero).1
        = Except.error CarveError.InvalidTargetError ∧
    (seamCarvingRun testSrcBuf testOutBufZero).2.host = testSrcBuf.host ∧
    (seamCarvingRun testSrcBuf testOutBufZero).2.host_dirty = testSrcBuf.host_dirty ∧
    (seamCarvingRun testSrcBuf testOutBufZero).2.dev_dirty = testSrcBuf.dev_dirty) :=
  ⟨Or.inl rfl, driver_invalid_target testSrcBuf testOutBufZero (Or.inl rfl)⟩

/-- C7: the carving driver is deterministic — two runs on identical
input buffers with the same declared target width produce identical
outcomes, bit for bit. -/
theorem driver_deterministic (m0 m0b result resultb : buffer_t)
    (h1 : m0 = m0b) (h2 : result = resultb) :
    seamCarvingRun m0 result = seamCarvingRun m0b resultb := by
  rw [h1, h2]

/-- C7 witness: two identical concrete invocations coincide. -/
theorem driver_deterministic_witness :
    seamCarvingRun testSrcBuf testOutBuf = seamCarvingRun testSrcBuf testOutBuf :=
  driver_deterministic testSrcBuf testSrcBuf testOutBuf testOutBuf rfl rfl

/-- C8: carving with a target width equal to the source width succeeds
and returns a buffer whose every pixel is identical to the source's at
the same position. -/
theorem driver_noop_identity (m0 result : buffer_t)
    (hW : 0 < m0.dims 0) (ht : result.dims 0 = m0.dims 0) :
    ∃ b : buffer_t, (seamCarvingRun m0 result).1 = Except.ok b ∧
      ∀ x y c, b.host x y c = m0.host x y c := by
  have hok := seamCarve_ok (bufImage m0) (result.dims 0) (by omega)
    (by show result.dims 0 ≤ m0.dims 0; omega)
  unfold seamCarvingRun
  rw [hok]
  refine ⟨_, rfl, ?_⟩
  intro x y c
  have h0 : (bufImage m0).width - result.dims 0 = 0 := by
    show m0.dims 0 - result.dims 0 = 0
    omega
  rw [h0]
  rfl

/-- C8 witness: a no-op carve of a concrete 3 × 2 × 1 buffer to its own
width. -/
theorem driver_noop_identity_witness :
    (0 < testSrcBuf.dims 0) ∧ (testOutBufSame.dims 0 = testSrcBuf.dims 0) ∧
    (∃ b : buffer_t, (seamCarvingRun testSrcBuf testOutBufSame).1 = Except.ok b ∧
      ∀ x y c, b.host x y c = testSrcBuf.host x y c) :=
  ⟨by decide, by decide,
    driver_noop_identity testSrcBuf testOutBufSame (by decide) (by decide)⟩
